import Mathlib

/-!
Shallow embedding of the sqltyper statement-analysis pipeline and its
TypeScript code generator, together with proofs about the embedded
definitions.  Sources embedded here: codegen.ts (statement validation and
TypeScript generation), index.ts (the analysis pipeline), clients.ts
(connection-scoped clients and cache clearing), cli.ts (transform
configuration loading) and tableColumns.ts (the catalog attribute query).
Components whose implementation files are not part of the source tree
(preprocess.ts, Warn.ts, schema.ts, parts of tstype.ts) are modelled from
the specification; each such definition says so in its doc comment.
-/

/-! ## Data model (types.ts, as described by the specification) -/

/-- Cardinality class of a statement: zero, one, zeroOrOne or many rows. -/
inductive RowCount where
  | zero
  | one
  | zeroOrOne
  | many
deriving DecidableEq

/-- Reference to a PostgreSQL type: the server-assigned oid. -/
structure TypeRef where
  oid : Nat
deriving DecidableEq

/-- A named value: an output column or a statement parameter. -/
structure NamedValue where
  name : String
  type : TypeRef
  nullable : Bool
deriving DecidableEq

/-- The final output of the analysis pipeline for one SQL statement. -/
structure StatementDescription where
  sql : String
  params : List NamedValue
  columns : List NamedValue
  rowCount : RowCount
deriving DecidableEq

/-! ## validateStatement (codegen.ts) -/

/-- One step of the forEach loop of validateStatement: the first component
is the columnNames set, the second the conflicts set, both kept as
insertion-ordered duplicate-free lists exactly as a JS Set does. -/
def validateStep (acc : List String × List String) (name : String) :
    List String × List String :=
  if name ∈ acc.1 then
    (acc.1, if name ∈ acc.2 then acc.2 else acc.2 ++ [name])
  else
    (acc.1 ++ [name], acc.2)

/-- Embedding of validateStatement from codegen.ts: collect output column
names that occur more than once; if any exist, fail with a message listing
them sorted and comma-separated, otherwise return the statement unchanged. -/
def validateStatement (stmt : StatementDescription) :
    Except String StatementDescription :=
  let acc := stmt.columns.foldl (fun acc nv => validateStep acc nv.name) ([], [])
  if acc.2.isEmpty then
    Except.ok stmt
  else
    Except.error ("Duplicate output columns: " ++
      String.intercalate ", " (List.insertionSort (· ≤ ·) acc.2))

/-- The duplicated output column names of a statement, stated following the
claim: the names that occur at least twice among the columns, each listed
once, sorted.  Used only to compare against what validateStatement reports. -/
def duplicatedColumnNames (stmt : StatementDescription) : List String :=
  List.insertionSort (· ≤ ·)
    (((stmt.columns.map (fun c => c.name)).dedup).filter
      (fun n => 1 < (stmt.columns.map (fun c => c.name)).count n))

/-! ## TypeClient and TypeScript code generation (codegen.ts, tstype.ts) -/

/-- A caller-supplied transform for one type oid (tstype.ts).  The field
holding the optional module to pull the serialize function from is called
optionalImport here, after the name the spec uses, because Lean reserves
the single-word field name of the source. -/
structure Transform where
  tsType : String
  serializeFunc : String
  optionalImport : Option String
deriving DecidableEq

/-- The connection-scoped type client.  The transforms table and the set of
array type oids are the data the claims inspect; the two resolution
functions stand for the tsType and columnType resolution of tstype.ts,
whose implementation file is not part of the source tree and which the
code generator only ever calls as black boxes. -/
structure TypeClient where
  transforms : List (Nat × Transform)
  arrayOids : List Nat
  resolveTsType : TypeRef → Bool → String
  resolveColumnType : NamedValue → String × String

/-- Lookup of a registered transform by oid (tstype.ts getTransform). -/
def TypeClient.getTransform (types : TypeClient) (oid : Nat) : Option Transform :=
  (types.transforms.find? (fun e => e.1 == oid)).map (fun e => e.2)

/-- Whether an oid denotes an array type (tstype.ts isArray, backed by the
one-time catalog query for array type oids). -/
def TypeClient.isArray (types : TypeClient) (oid : Nat) : Bool :=
  types.arrayOids.contains oid

/-- The registered transforms table (tstype.ts getTransforms). -/
def TypeClient.getTransforms (types : TypeClient) : List (Nat × Transform) :=
  types.transforms

/-- Resolved TypeScript type of a value (tstype.ts tsType). -/
def TypeClient.tsType (types : TypeClient) (t : TypeRef) (nullable : Bool) : String :=
  types.resolveTsType t nullable

/-- Resolved name and TypeScript type of an output column
(tstype.ts columnType). -/
def TypeClient.columnType (types : TypeClient) (column : NamedValue) :
    String × String :=
  types.resolveColumnType column

/-- Replace the first occurrence of a character, as the JS String.replace
with a string pattern does (it only ever replaces the first match). -/
def replaceFirstChar : List Char → Char → List Char → List Char
  | [], _, _ => []
  | c :: rest, target, rep =>
    if c = target then rep ++ rest else c :: replaceFirstChar rest target rep

/-- The single-quote character, written by code point. -/
def squote : Char := Char.ofNat 39

/-- Embedding of stringLiteral from codegen.ts: wrap in single quotes after
escaping (only the first occurrence of) a backslash and a quote. -/
def stringLiteral (str : String) : String :=
  String.mk (squote ::
    (replaceFirstChar (replaceFirstChar str.data '\\' ['\\', '\\'])
      squote ['\\', squote] ++ [squote]))

/-- The TypeScript record type for one result row, as funcReturnType of
codegen.ts builds it from the resolved column types. -/
def rowTypeOf (types : TypeClient) (stmt : StatementDescription) : String :=
  "\x7b " ++ String.intercalate "; "
    (stmt.columns.map (fun column =>
      let nt := types.columnType column
      stringLiteral nt.1 ++ ": " ++ nt.2)) ++ " \x7d"

/-- Embedding of funcReturnType from codegen.ts: the declared return type
of the generated function, chosen by the cardinality class. -/
def funcReturnType (types : TypeClient) (stmt : StatementDescription) : String :=
  let rowType := rowTypeOf types stmt
  match stmt.rowCount with
  | RowCount.zero => "number"
  | RowCount.one => rowType
  | RowCount.zeroOrOne => rowType ++ " | null"
  | RowCount.many => "Array<" ++ rowType ++ ">"

/-- The codegen target: node-postgres (pg) or postgres.js (postgres). -/
inductive CodegenTarget where
  | pg
  | postgres
deriving DecidableEq

/-- Embedding of outputValue from codegen.ts: the expression the generated
function returns, chosen by target and cardinality class. -/
def outputValue (target : CodegenTarget) (stmt : StatementDescription) : String :=
  let rows := match target with
    | CodegenTarget.pg => "result.rows"
    | CodegenTarget.postgres => "result"
  let count := match target with
    | CodegenTarget.pg => "result.rowCount"
    | CodegenTarget.postgres => "result.count"
  match stmt.rowCount with
  | RowCount.zero => count
  | RowCount.one => rows ++ "[0]"
  | RowCount.zeroOrOne => count ++ " > 0 ? " ++ rows ++ "[0] : null"
  | RowCount.many => rows

/-- The row-list accessor of each target, named for use in theorem
statements. -/
def resultRowsStr : CodegenTarget → String
  | CodegenTarget.pg => "result.rows"
  | CodegenTarget.postgres => "result"

/-- The affected-row-count accessor of each target, named for use in
theorem statements. -/
def resultCountStr : CodegenTarget → String
  | CodegenTarget.pg => "result.rowCount"
  | CodegenTarget.postgres => "result.count"

/-- Embedding of hasOnlyPositionalParams from codegen.ts: every parameter
name matches the unanchored regex of a dollar sign followed by digits,
that is, contains a dollar sign immediately followed by a digit. -/
def containsDollarDigits : List Char → Bool
  | [] => false
  | c :: rest =>
    (c = '$' && (match rest with
      | d :: _ => d.isDigit
      | [] => false)) || containsDollarDigits rest

/-- Whether every parameter of the statement has a positional name
(codegen.ts hasOnlyPositionalParams). -/
def hasOnlyPositionalParams (stmt : StatementDescription) : Bool :=
  stmt.params.all (fun param => containsDollarDigits param.name.data)

/-- Embedding of positionalFuncParams from codegen.ts: one name-typed
entry per parameter, comma separated. -/
def positionalFuncParams (types : TypeClient) (stmt : StatementDescription) :
    String :=
  String.intercalate ", "
    (stmt.params.map (fun param =>
      param.name ++ ": " ++ types.tsType param.type param.nullable))

/-- Embedding of namedFuncParams from codegen.ts: the positional entries
wrapped into a single params object argument. -/
def namedFuncParams (types : TypeClient) (stmt : StatementDescription) : String :=
  "params: \x7b " ++ positionalFuncParams types stmt ++ " \x7d"

/-- Embedding of funcParams from codegen.ts: empty for a parameterless
statement, otherwise a comma followed by either the positional entries or
the single wrapped params object. -/
def funcParams (types : TypeClient) (stmt : StatementDescription)
    (positionalOnly : Bool) : String :=
  if stmt.params.isEmpty then ""
  else
    ", " ++ (if positionalOnly then positionalFuncParams types stmt
             else namedFuncParams types stmt)

/-- Embedding of queryValues from codegen.ts: the expression generated for
each parameter of the query call, with optional serialization through a
registered transform guarded by truthiness and optional array encoding. -/
def queryValues (types : TypeClient) (stmt : StatementDescription)
    (positionalOnly encodeArray serializeFunctionOnConnection : Bool) :
    List String :=
  if stmt.params.isEmpty then []
  else
    let pfx := if positionalOnly then "" else "params."
    stmt.params.map (fun param =>
      let p := pfx ++ param.name
      let pWithTransform := match types.getTransform param.type.oid with
        | some transform =>
          p ++ " && " ++
            (if serializeFunctionOnConnection then "sql.types." else "") ++
            transform.serializeFunc ++ "(" ++ p ++ ")"
        | none => p
      if encodeArray && types.isArray param.type.oid then
        "sql.array(" ++ pWithTransform ++ ")"
      else pWithTransform)

/-! A small model of the JavaScript values and the logical AND operator, to
state what the emitted guarded expression does at runtime: a falsy left
operand, in particular null or undefined, is returned as is and the
serialize function is not applied. -/

/-- JavaScript runtime values, as far as truthiness is concerned. -/
inductive JsVal where
  | null
  | undefined
  | bool (b : Bool)
  | num (n : Int)
  | str (s : String)
  | objLike
deriving DecidableEq

/-- JavaScript truthiness of a runtime value. -/
def jsValTruthy : JsVal → Bool
  | JsVal.null => false
  | JsVal.undefined => false
  | JsVal.bool b => b
  | JsVal.num n => n != 0
  | JsVal.str s => !s.isEmpty
  | JsVal.objLike => true

/-- Semantics of the JavaScript expression p && f(p): evaluate f only when
p is truthy, otherwise return p itself. -/
def evalAnd (p : JsVal) (f : JsVal → JsVal) : JsVal :=
  if jsValTruthy p then f p else p

/-! ## Warn (Warn.ts).  Modelled from the spec: Warn.ts is not part of the
source tree.  Per the specification, a Warn pairs a value with an ordered
sequence of diagnostic strings; the binary combinator concatenates the two
diagnostic lists in the order the sub-analyses were performed, and split
returns the bare value and the diagnostics separately. -/

/-- A value together with the ordered diagnostics accumulated while
computing it. -/
structure Warn (α : Type) where
  value : α
  warnings : List String
deriving DecidableEq

/-- Modelled from the spec: pure wraps a value with no diagnostics. -/
def Warn.make (a : α) : Warn α := ⟨a, []⟩

/-- Modelled from the spec: map transforms the value and keeps the
diagnostics. -/
def Warn.map (f : α → β) (w : Warn α) : Warn β :=
  ⟨f w.value, w.warnings⟩

/-- Modelled from the spec: the binary combinator merges two Warn values,
combining the values and concatenating the diagnostics of the first with
those of the second, in that order. -/
def Warn.merge (f : α → β → γ) (w1 : Warn α) (w2 : Warn β) : Warn γ :=
  ⟨f w1.value w2.value, w1.warnings ++ w2.warnings⟩

/-- Modelled from the spec: split returns the bare value and the
diagnostics. -/
def Warn.split (w : Warn α) : α × List String :=
  (w.value, w.warnings)

/-! ## The analysis pipeline (index.ts sqlToStatementDescription) -/

/-- The result of preprocessing: the positional-placeholder SQL text and
the parameter names, one per synthesized position.  Modelled from the
spec, since preprocess.ts is not part of the source tree; the pipeline
only passes both fields on to the describer. -/
structure ProcessedSql where
  sql : String
  paramNames : List String

/-- The failure modes of one statement analysis as the pipeline surfaces
them: a stage failure carried in the error channel of the pipeline (from
preprocessing, describing or validation), or an analyzer defect raised
while traversing the syntax tree during inference.  In the source the
latter is a thrown exception that bypasses the TaskEither chain entirely,
so it can never be mistaken for a warning nor for a stage error. -/
inductive AnalyzeError where
  | stage (message : String)
  | untraversableTree (message : String)
deriving DecidableEq

/-- The three pipeline stages whose implementation files are not part of
the source tree, as black boxes.  Modelled from the spec: preprocessing
and describing may fail with a message; inference returns the statement
with warnings, and fails only by raising, on a structurally untraversable
syntax tree. -/
structure PipelineStages where
  preprocessSQL : String → Except String ProcessedSql
  describeStatement : String → List String → Except String StatementDescription
  inferStatementNullability :
    StatementDescription → Except String (Warn StatementDescription)

/-- Embedding of sqlToStatementDescription from index.ts: preprocess, then
describe, then validate duplicate columns, then infer nullability; each
stage runs only when every earlier stage succeeded, and a failure is
returned at once.  An inference failure is surfaced through the distinct
untraversableTree constructor, modelling the thrown exception of the
source, which TaskEither.rightTask cannot turn into a warning. -/
def sqlToStatementDescription (stages : PipelineStages) (sql : String) :
    Except AnalyzeError (Warn StatementDescription) :=
  match stages.preprocessSQL sql with
  | Except.error e => Except.error (AnalyzeError.stage e)
  | Except.ok processed =>
    match stages.describeStatement processed.sql processed.paramNames with
    | Except.error e => Except.error (AnalyzeError.stage e)
    | Except.ok stmt =>
      match validateStatement stmt with
      | Except.error e => Except.error (AnalyzeError.stage e)
      | Except.ok validated =>
        match stages.inferStatementNullability validated with
        | Except.error e => Except.error (AnalyzeError.untraversableTree e)
        | Except.ok warnStmt => Except.ok warnStmt

/-! ## The preprocessor (preprocess.ts).  Modelled from the spec: the file
is not part of the source tree.  Per the specification the preprocessor
rewrites named placeholders to positional ones, assigning one position
number per distinct name in order of first occurrence and reusing that
number at repeat occurrences, and reports the original names, one per
synthesized position.  The statement text is modelled as a token list in
which quoted literals and comments are ordinary text tokens, which the
preprocessor must not rewrite. -/

/-- A fragment of the raw statement: ordinary text (including string
literals and comments) or a named placeholder. -/
inductive SqlToken where
  | text (s : String)
  | param (name : String)
deriving DecidableEq

/-- A fragment of the rewritten statement: ordinary text or a numbered
positional placeholder. -/
inductive PosToken where
  | text (s : String)
  | placeholder (n : Nat)
deriving DecidableEq

/-- The names occurring in placeholder tokens, in textual order, with
repeats kept. -/
def paramOccurrences (tokens : List SqlToken) : List String :=
  tokens.filterMap (fun t => match t with
    | SqlToken.param n => some n
    | SqlToken.text _ => none)

/-- Modelled from the spec: the distinct placeholder names in order of
first occurrence, which is the paramNames sequence of the result. -/
def collectParamNames (tokens : List SqlToken) : List String :=
  tokens.foldl (fun acc t => match t with
    | SqlToken.param n => if n ∈ acc then acc else acc ++ [n]
    | SqlToken.text _ => acc) []

/-- Modelled from the spec: rewrite one token, numbering a placeholder by
the position of its name in the paramNames sequence, counted from one. -/
def posTokenOf (names : List String) : SqlToken → PosToken
  | SqlToken.text s => PosToken.text s
  | SqlToken.param n => PosToken.placeholder (names.indexOf n + 1)

/-- The preprocessed statement: rewritten tokens and the paramNames
sequence. -/
structure ProcessedTokens where
  sql : List PosToken
  paramNames : List String
deriving DecidableEq

/-- Modelled from the spec: preprocessSQL over the token model. -/
def preprocessSQLTokens (tokens : List SqlToken) : ProcessedTokens :=
  let names := collectParamNames tokens
  ⟨tokens.map (posTokenOf names), names⟩

/-! ## Connection-scoped clients and cache clearing (clients.ts) -/

/-- What a physical connection exposes to the client constructors: the
array type oids its catalog currently reports (read by the one-time query
the type client runs when created) and the resolution behaviour the type
client derives from the catalog.  A connection value stands for the live
connection together with the current catalog state behind it. -/
structure Connection where
  arrayOids : List Nat
  resolveTsType : TypeRef → Bool → String
  resolveColumnType : NamedValue → String × String

/-- Catalog facts for one column: declared NOT NULL and has a default. -/
structure ColumnFacts where
  notNull : Bool
  hasDefault : Bool
deriving DecidableEq

/-- The schema client.  Modelled from the spec, since schema.ts is not
part of the source tree: it holds the per (schema, table) catalog-facts
cache, populated lazily and retained for the lifetime of the client. -/
structure SchemaClient where
  cache : List ((String × String) × List (String × ColumnFacts))
deriving DecidableEq

/-- Modelled from the spec: a freshly constructed schema client starts
with an empty catalog-facts cache (schema.ts schemaClient). -/
def schemaClient (_postgresClient : Connection) : SchemaClient :=
  ⟨[]⟩

/-- Construction of a type client from the registered transforms and a
connection (tstype.ts typeClient): the caches are populated from the
current catalog state of the connection. -/
def typeClient (transforms : List (Nat × Transform))
    (postgresClient : Connection) : TypeClient :=
  ⟨transforms, postgresClient.arrayOids, postgresClient.resolveTsType,
    postgresClient.resolveColumnType⟩

/-- The connection-scoped clients record of clients.ts. -/
structure Clients where
  postgres : Connection
  schema : SchemaClient
  types : TypeClient

/-- Embedding of clearCache from clients.ts: recreate the type client from
its own transforms and the existing connection, and keep every other
field of the clients record as it is. -/
def clearCache (clients : Clients) : Clients :=
  { clients with types := typeClient clients.types.getTransforms clients.postgres }

/-! ## The catalog attribute query (tableColumns.ts) -/

/-- A row of pg_attribute, restricted to the columns the query touches. -/
structure PgAttribute where
  attrelid : Nat
  attnum : Int
  attname : String
  atttypid : Nat
  attnotnull : Bool
  atthasdef : Bool
  attisdropped : Bool
deriving DecidableEq

/-- A row of pg_class, restricted to the columns the query touches. -/
structure PgClass where
  oid : Nat
  relname : String
  relkind : Char
  relnamespace : Nat
deriving DecidableEq

/-- A row of pg_namespace, restricted to the columns the query touches. -/
structure PgNamespace where
  oid : Nat
  nspname : String
deriving DecidableEq

/-- The system catalog state the query reads. -/
structure Catalog where
  attributes : List PgAttribute
  classes : List PgClass
  namespaces : List PgNamespace

/-- The projected output row of the tableColumns query. -/
structure AttributeRow where
  attnum : Int
  attname : String
  atttypid : Nat
  attnotnull : Bool
  atthasdef : Bool
  attisdropped : Bool
deriving DecidableEq

/-- Projection of a pg_attribute row to the selected output columns. -/
def attributeRowOf (attr : PgAttribute) : AttributeRow :=
  ⟨attr.attnum, attr.attname, attr.atttypid, attr.attnotnull,
    attr.atthasdef, attr.attisdropped⟩

/-- Embedding of the SQL query of tableColumns.ts: join pg_attribute with
pg_class and pg_namespace, keep ordinary tables and views of the given
schema and name, project the attribute columns and order by attnum. -/
def tableColumns (db : Catalog) (schemaName tableName : String) :
    List AttributeRow :=
  let joined :=
    db.attributes.flatMap (fun attr =>
      db.classes.flatMap (fun cls =>
        db.namespaces.filterMap (fun nsp =>
          if attr.attrelid == cls.oid && nsp.oid == cls.relnamespace &&
              (cls.relkind == 'r' || cls.relkind == 'v') &&
              nsp.nspname == schemaName && cls.relname == tableName then
            some (attributeRowOf attr)
          else none)))
  List.insertionSort (fun x y => x.attnum ≤ y.attnum) joined

/-! ## Transform-configuration loading (cli.ts getTransforms) -/

/-- A parsed JSON value.  An object is its entries in JS enumeration
order. -/
inductive Json where
  | null
  | bool (b : Bool)
  | num (n : Int)
  | str (s : String)
  | arr (elems : List Json)
  | obj (entries : List (String × Json))

/-- JavaScript truthiness of a parsed JSON value: null, false, zero and
the empty string are falsy, every array and object is truthy. -/
def jsTruthy : Json → Bool
  | Json.null => false
  | Json.bool b => b
  | Json.num n => n != 0
  | Json.str s => !s.isEmpty
  | Json.arr _ => true
  | Json.obj _ => true

/-- JavaScript property access on a parsed JSON value: defined only on
objects, undefined (none) everywhere else. -/
def jsGetProp : Json → String → Option Json
  | Json.obj entries, key => (entries.find? (fun e => e.1 == key)).map (fun e => e.2)
  | _, _ => none

/-- Truthiness of a possibly undefined value: undefined is falsy. -/
def jsTruthyOpt : Option Json → Bool
  | some v => jsTruthy v
  | none => false

/-- Whether the JS typeof operator reports object for the value: true for
objects, arrays and null alike. -/
def jsTypeofObject : Json → Bool
  | Json.null => true
  | Json.arr _ => true
  | Json.obj _ => true
  | _ => false

/-- Whether the value is a JSON object proper.  This is the notion of
object the claim about getTransforms speaks of; it differs from
jsTypeofObject exactly on null and on arrays. -/
def isJsonObjectStrict : Json → Bool
  | Json.obj _ => true
  | _ => false

/-- The key-value pairs a JS for-in loop enumerates: the entries of an
object, the indexed elements of an array, and nothing for null. -/
def jsEntries : Json → List (String × Json)
  | Json.obj entries => entries
  | Json.arr elems => elems.enum.map (fun e => (toString e.1, e.2))
  | _ => []

/-- Value of one hexadecimal digit, none for any other character. -/
def hexDigitVal (c : Char) : Option Nat :=
  if c.isDigit then some (c.toNat - '0'.toNat)
  else if 'a' ≤ c ∧ c ≤ 'f' then some (c.toNat - 'a'.toNat + 10)
  else if 'A' ≤ c ∧ c ≤ 'F' then some (c.toNat - 'A'.toNat + 10)
  else none

/-- Fold a digit list into a number in the given base. -/
def digitsValue (base : Nat) (toVal : Char → Nat) (ds : List Char) : Nat :=
  ds.foldl (fun acc c => acc * base + toVal c) 0

/-- Model of the JS parseInt builtin with no radix argument: skip leading
whitespace, read an optional sign, then the longest prefix of hexadecimal
digits after a 0x or 0X prefix, else the longest prefix of decimal
digits; none stands for NaN, returned when no digit follows. -/
def jsParseIntChars (cs : List Char) : Option Int :=
  let cs := cs.dropWhile Char.isWhitespace
  let signed : Int × List Char :=
    match cs with
    | c :: rest =>
      if c = '-' then (-1, rest) else if c = '+' then (1, rest) else (1, cs)
    | [] => (1, [])
  let digits : Option Nat :=
    match signed.2 with
    | '0' :: c :: rest =>
      if c = 'x' ∨ c = 'X' then
        let ds := rest.takeWhile (fun d => (hexDigitVal d).isSome)
        if ds.isEmpty then none
        else some (digitsValue 16 (fun d => (hexDigitVal d).getD 0) ds)
      else
        let ds := signed.2.takeWhile (fun d => d.isDigit)
        if ds.isEmpty then none else some (digitsValue 10 (fun d => d.toNat - '0'.toNat) ds)
    | _ =>
      let ds := signed.2.takeWhile (fun d => d.isDigit)
      if ds.isEmpty then none else some (digitsValue 10 (fun d => d.toNat - '0'.toNat) ds)
  digits.map (fun n => signed.1 * Int.ofNat n)

/-- Model of the JS parseInt builtin on a string key. -/
def jsParseInt (s : String) : Option Int :=
  jsParseIntChars s.data

/-- One entry of the transforms map: the parseInt of the key (none for
NaN) and the raw supplied value. -/
abbrev TransformsMap := List (Option Int × Json)

/-- Model of JS Map.set: replace the value of an existing key in place,
else append the new entry. -/
def mapSet (m : TransformsMap) (k : Option Int) (v : Json) : TransformsMap :=
  if m.any (fun e => e.1 == k) then
    m.map (fun e => if e.1 == k then (k, v) else e)
  else m ++ [(k, v)]

/-- Model of JS Map.get. -/
def mapGet (m : TransformsMap) (k : Option Int) : Option Json :=
  (m.find? (fun e => e.1 == k)).map (fun e => e.2)

/-- The validation getTransforms applies to each entry value: the value,
its tsType property and its serializeFunc property must all be truthy. -/
def validTransformEntry (v : Json) : Bool :=
  jsTruthy v && jsTruthyOpt (jsGetProp v "tsType") &&
    jsTruthyOpt (jsGetProp v "serializeFunc")

/-- The loop of getTransforms from cli.ts: validate each enumerated entry
in order, failing at the first invalid one, and enter the others into the
map under the integer-parsed key. -/
def getTransformsGo : List (String × Json) → TransformsMap →
    Except String TransformsMap
  | [], m => Except.ok m
  | (key, val) :: rest, m =>
    if validTransformEntry val then
      getTransformsGo rest (mapSet m (jsParseInt key) val)
    else
      Except.error "Invalid transforms structure"

/-- Embedding of getTransforms from cli.ts, applied to the already parsed
file contents: anything the JS typeof operator calls an object is
enumerated and loaded into the map, everything else is rejected. -/
def getTransformsJson (parsed : Json) : Except String TransformsMap :=
  if jsTypeofObject parsed then
    getTransformsGo (jsEntries parsed) []
  else
    Except.error "Invalid transforms structure, should be an object"

/-- The value of the last enumerated key parsing to the given integer,
stated following the amended claim, to compare with what the loaded map
holds. -/
def lastValueFor : List (String × Json) → Option Int → Option Json
  | [], _ => none
  | e :: rest, k =>
    match lastValueFor rest k with
    | some v => some v
    | none => if jsParseInt e.1 == k then some e.2 else none

/-! ## Concrete fixtures used by witnesses and counterexamples -/

/-- The text type reference. -/
def trText : TypeRef := ⟨25⟩

/-- A sample output column named a. -/
def colA : NamedValue := ⟨"a", trText, true⟩

/-- A sample output column named b. -/
def colB : NamedValue := ⟨"b", trText, true⟩

/-- A statement with distinct output column names. -/
def stmtOkEx : StatementDescription := ⟨"SELECT 1", [], [colA, colB], RowCount.many⟩

/-- A statement whose output repeats the column name a. -/
def stmtDupEx : StatementDescription :=
  ⟨"SELECT 1", [], [colA, colB, colA], RowCount.many⟩

/-- A sample connection whose catalog reports 1007 as an array type oid. -/
def exConn : Connection := ⟨[1007], fun _ _ => "string", fun nv => (nv.name, "string")⟩

/-- A type client over the sample connection with no transforms. -/
def exTypes : TypeClient := typeClient [] exConn

/-- A schema client whose catalog-facts cache already holds a fact. -/
def exStaleSchema : SchemaClient := ⟨[(("public", "t"), [("c", ⟨true, false⟩)])]⟩

/-- A clients record whose schema client carries the cached fact. -/
def exClients : Clients := ⟨exConn, exStaleSchema, exTypes⟩

/-- A statement of cardinality class zero. -/
def stmtZeroEx : StatementDescription := ⟨"UPDATE t SET c = 1", [], [], RowCount.zero⟩

/-- Pipeline stages whose preprocessor fails. -/
def stagesPreFail : PipelineStages :=
  ⟨fun _ => Except.error "pre", fun _ _ => Except.ok stmtOkEx,
    fun s => Except.ok ⟨s, []⟩⟩

/-- Pipeline stages whose inference raises on an untraversable tree. -/
def stagesInferFail : PipelineStages :=
  ⟨fun s => Except.ok ⟨s, []⟩, fun _ _ => Except.ok stmtOkEx,
    fun _ => Except.error "cannot traverse"⟩

/-- Pipeline stages that all succeed, inference adding one warning. -/
def stagesOkEx : PipelineStages :=
  ⟨fun s => Except.ok ⟨s, []⟩, fun _ _ => Except.ok stmtOkEx,
    fun s => Except.ok ⟨s, ["w1"]⟩⟩

/-- A token list using the named parameter id at two positions. -/
def exTokens : List SqlToken :=
  [SqlToken.param "id", SqlToken.text " OR ", SqlToken.param "id"]

/-- A valid transform entry whose tsType is A. -/
def tA : Json := Json.obj [("tsType", Json.str "A"), ("serializeFunc", Json.str "fa")]

/-- A valid transform entry whose tsType is B. -/
def tB : Json := Json.obj [("tsType", Json.str "B"), ("serializeFunc", Json.str "fb")]

/-- A transforms object whose keys 1 and 01 both parse to the integer 1. -/
def exTransformsObj : Json := Json.obj [("1", tA), ("01", tB)]

/-- A parameter with a non-positional name. -/
def paramNamed : NamedValue := ⟨"userId", ⟨1007⟩, false⟩

/-- A statement with one non-positional parameter. -/
def stmtNamedEx : StatementDescription :=
  ⟨"SELECT 1", [paramNamed], [colA], RowCount.many⟩

/-- A registered transform fixture. -/
def exTransform : Transform := ⟨"MyType", "serMy", none⟩

/-- A type client registering the transform for oid 1007, which the sample
connection also reports as an array type. -/
def exTypesTr : TypeClient := typeClient [(1007, exTransform)] exConn

/-- A catalog with no relations at all. -/
def emptyCatalog : Catalog := ⟨[], [], []⟩

/-! ## Theorems -/

/-- C8: composition of Warn values is order-preserving and associative on
the diagnostics side, the merged diagnostics being those of the first
value followed by those of the second, and splitting a Warn returns its
bare value and its diagnostics unchanged. -/
theorem c8_warn_composition {α β γ δ ε ζ : Type} (f : α → β → γ) (g : γ → δ → ε)
    (f2 : β → δ → ζ) (g2 : α → ζ → ε)
    (w1 : Warn α) (w2 : Warn β) (w3 : Warn δ) :
    (Warn.merge f w1 w2).warnings = w1.warnings ++ w2.warnings
    ∧ (Warn.merge g (Warn.merge f w1 w2) w3).warnings
        = (Warn.merge g2 w1 (Warn.merge f2 w2 w3)).warnings
    ∧ Warn.split (Warn.merge f w1 w2)
        = (f w1.value w2.value, w1.warnings ++ w2.warnings)
    ∧ (∀ w : Warn α, Warn.split w = (w.value, w.warnings)) := by
  refine ⟨rfl, ?_, rfl, fun w => rfl⟩
  simp [Warn.merge, List.append_assoc]

/-- C5 counterexample: the claim says clearCache recreates every
per-connection cache, the catalog-facts (schema) cache included; but on a
clients record whose schema client holds a cached fact, clearCache keeps
the schema client, stale cache and all, unequal to a freshly created
schema client for the same connection. -/
theorem c5_clearCache_counterexample :
    (clearCache exClients).schema = exClients.schema
    ∧ exClients.schema ≠ schemaClient exClients.postgres
    ∧ (clearCache exClients).schema ≠ schemaClient exClients.postgres := by
  refine ⟨rfl, ?_, ?_⟩ <;> decide

/-- C5 amended: clearCache recreates the type client (and with it the type
cache) from the registered transforms and the existing connection, while
the schema client with its catalog-facts cache and the underlying
connection are reused unchanged. -/
theorem c5_clearCache_amended (clients : Clients) :
    (clearCache clients).types = typeClient clients.types.getTransforms clients.postgres
    ∧ (clearCache clients).schema = clients.schema
    ∧ (clearCache clients).postgres = clients.postgres :=
  ⟨rfl, rfl, rfl⟩

/-- C2: the return type and returned expression of the generated function
are determined by the cardinality class: zero returns the affected-row
count as a number, one a single row object, zeroOrOne the row or null
guarded by the reported result count, and many an array of rows. -/
theorem c2_return_shape (types : TypeClient) (stmt : StatementDescription)
    (target : CodegenTarget) :
    (stmt.rowCount = RowCount.zero →
      funcReturnType types stmt = "number"
      ∧ outputValue target stmt = resultCountStr target)
    ∧ (stmt.rowCount = RowCount.one →
      funcReturnType types stmt = rowTypeOf types stmt
      ∧ outputValue target stmt = resultRowsStr target ++ "[0]")
    ∧ (stmt.rowCount = RowCount.zeroOrOne →
      funcReturnType types stmt = rowTypeOf types stmt ++ " | null"
      ∧ outputValue target stmt
          = resultCountStr target ++ " > 0 ? " ++ resultRowsStr target ++ "[0] : null")
    ∧ (stmt.rowCount = RowCount.many →
      funcReturnType types stmt = "Array<" ++ rowTypeOf types stmt ++ ">"
      ∧ outputValue target stmt = resultRowsStr target) := by
  cases target <;>
    exact ⟨fun h => by simp [funcReturnType, outputValue, resultRowsStr, resultCountStr, h],
      fun h => by simp [funcReturnType, outputValue, resultRowsStr, resultCountStr, h],
      fun h => by simp [funcReturnType, outputValue, resultRowsStr, resultCountStr, h],
      fun h => by simp [funcReturnType, outputValue, resultRowsStr, resultCountStr, h]⟩

/-- C2 witness: the zero cardinality case at a concrete statement and the
pg target. -/
theorem c2_return_shape_witness :
    funcReturnType exTypes stmtZeroEx = "number"
    ∧ outputValue CodegenTarget.pg stmtZeroEx = resultCountStr CodegenTarget.pg :=
  (c2_return_shape exTypes stmtZeroEx CodegenTarget.pg).1 rfl

/-- C3: the pipeline runs preprocessing, describing, duplicate-column
validation and nullability inference in that order; the failure of a
stage is returned at once as an error result, the result then not
depending on any later stage, and an untraversable syntax tree during
inference surfaces through the dedicated error constructor, distinct from
both warnings and stage errors. -/
theorem c3_pipeline_order (stages : PipelineStages) (sql : String) :
    (∀ e, stages.preprocessSQL sql = Except.error e →
      sqlToStatementDescription stages sql = Except.error (AnalyzeError.stage e))
    ∧ (∀ processed e, stages.preprocessSQL sql = Except.ok processed →
        stages.describeStatement processed.sql processed.paramNames = Except.error e →
        sqlToStatementDescription stages sql = Except.error (AnalyzeError.stage e))
    ∧ (∀ processed stmt e, stages.preprocessSQL sql = Except.ok processed →
        stages.describeStatement processed.sql processed.paramNames = Except.ok stmt →
        validateStatement stmt = Except.error e →
        sqlToStatementDescription stages sql = Except.error (AnalyzeError.stage e))
    ∧ (∀ processed stmt validated e, stages.preprocessSQL sql = Except.ok processed →
        stages.describeStatement processed.sql processed.paramNames = Except.ok stmt →
        validateStatement stmt = Except.ok validated →
        stages.inferStatementNullability validated = Except.error e →
        sqlToStatementDescription stages sql
          = Except.error (AnalyzeError.untraversableTree e))
    ∧ (∀ processed stmt validated w, stages.preprocessSQL sql = Except.ok processed →
        stages.describeStatement processed.sql processed.paramNames = Except.ok stmt →
        validateStatement stmt = Except.ok validated →
        stages.inferStatementNullability validated = Except.ok w →
        sqlToStatementDescription stages sql = Except.ok w) := by
  refine ⟨fun e h1 => ?_, fun pr e h1 h2 => ?_, fun pr st e h1 h2 h3 => ?_,
    fun pr st va e h1 h2 h3 h4 => ?_, fun pr st va w h1 h2 h3 h4 => ?_⟩
  · simp [sqlToStatementDescription, h1]
  · simp [sqlToStatementDescription, h1, h2]
  · simp [sqlToStatementDescription, h1, h2, h3]
  · simp [sqlToStatementDescription, h1, h2, h3, h4]
  · simp [sqlToStatementDescription, h1, h2, h3, h4]

/-- C3 witness: a failing preprocessor is returned as a stage error, a
raising inference as the distinct untraversable-tree error, and the
all-success path returns the inferred statement with its warnings. -/
theorem c3_pipeline_order_witness :
    sqlToStatementDescription stagesPreFail "q" = Except.error (AnalyzeError.stage "pre")
    ∧ sqlToStatementDescription stagesInferFail "q"
        = Except.error (AnalyzeError.untraversableTree "cannot traverse")
    ∧ sqlToStatementDescription stagesOkEx "q" = Except.ok ⟨stmtOkEx, ["w1"]⟩ :=
  ⟨(c3_pipeline_order stagesPreFail "q").1 "pre" rfl,
    (c3_pipeline_order stagesInferFail "q").2.2.2.1 ⟨"q", []⟩ stmtOkEx stmtOkEx
      "cannot traverse" rfl rfl rfl rfl,
    (c3_pipeline_order stagesOkEx "q").2.2.2.2 ⟨"q", []⟩ stmtOkEx stmtOkEx
      ⟨stmtOkEx, ["w1"]⟩ rfl rfl rfl rfl⟩


/-- The wrapped parameter object is never the same string as the bare
positional parameter list: it is twelve characters longer. -/
theorem namedFuncParams_ne_positional (types : TypeClient)
    (stmt : StatementDescription) :
    namedFuncParams types stmt ≠ positionalFuncParams types stmt := by
  intro h
  have hl := congrArg String.length h
  rw [namedFuncParams] at hl
  have h10 : ("params: \x7b " : String).length = 10 := by decide
  have h2 : (" \x7d" : String).length = 2 := by decide
  simp only [String.length_append, h10, h2] at hl
  omega

/-- hasOnlyPositionalParams decides whether every parameter name contains
a dollar sign followed by a digit. -/
theorem hasOnlyPositionalParams_eq_true (stmt : StatementDescription) :
    hasOnlyPositionalParams stmt = true
      ↔ ∀ p ∈ stmt.params, containsDollarDigits p.name.data = true := by
  simp [hasOnlyPositionalParams, List.all_eq_true]

/-- Helper: the two branch outputs of funcParams differ, comma prefix
included. -/
theorem comma_named_ne_comma_positional (types : TypeClient)
    (stmt : StatementDescription) :
    ", " ++ namedFuncParams types stmt ≠ ", " ++ positionalFuncParams types stmt := by
  intro h
  have hd := congrArg String.data h
  simp at hd
  exact namedFuncParams_ne_positional types stmt (String.ext hd)

/-- C9: with at least one parameter, the generated function takes a single
wrapped params object exactly when some parameter name does not contain a
dollar sign followed by digits, and the bare positional parameter list
exactly when every name does; a parameterless statement gets no parameter
argument at all. -/
theorem c9_funcParams_wrapping (types : TypeClient) (stmt : StatementDescription) :
    (stmt.params = [] →
      funcParams types stmt (hasOnlyPositionalParams stmt) = "")
    ∧ (stmt.params ≠ [] →
      (funcParams types stmt (hasOnlyPositionalParams stmt)
          = ", " ++ namedFuncParams types stmt
        ↔ ∃ p ∈ stmt.params, containsDollarDigits p.name.data = false))
    ∧ (stmt.params ≠ [] →
      (funcParams types stmt (hasOnlyPositionalParams stmt)
          = ", " ++ positionalFuncParams types stmt
        ↔ ∀ p ∈ stmt.params, containsDollarDigits p.name.data = true)) := by
  refine ⟨fun h => by simp [funcParams, h], fun hne => ?_, fun hne => ?_⟩ <;>
    have hemp : stmt.params.isEmpty = false := by
      simpa [List.isEmpty_iff] using hne
  · by_cases hpos : hasOnlyPositionalParams stmt = true
    · have hall := (hasOnlyPositionalParams_eq_true stmt).mp hpos
      have hLHS : funcParams types stmt (hasOnlyPositionalParams stmt)
          = ", " ++ positionalFuncParams types stmt := by
        simp [funcParams, hemp, hpos]
      constructor
      · intro heq
        rw [hLHS] at heq
        exact absurd heq.symm (comma_named_ne_comma_positional types stmt)
      · rintro ⟨p, hp, hf⟩
        have hmem := hall p hp
        rw [hf] at hmem
        exact absurd hmem (by simp)
    · have hposf : hasOnlyPositionalParams stmt = false := by simpa using hpos
      have hLHS : funcParams types stmt (hasOnlyPositionalParams stmt)
          = ", " ++ namedFuncParams types stmt := by
        simp [funcParams, hemp, hposf]
      have hx : ∃ p ∈ stmt.params, containsDollarDigits p.name.data = false := by
        have hnall : ¬ ∀ p ∈ stmt.params, containsDollarDigits p.name.data = true :=
          fun hall => hpos ((hasOnlyPositionalParams_eq_true stmt).mpr hall)
        push_neg at hnall
        obtain ⟨p, hp, hf⟩ := hnall
        exact ⟨p, hp, by simpa using hf⟩
      exact ⟨fun _ => hx, fun _ => hLHS⟩
  · by_cases hpos : hasOnlyPositionalParams stmt = true
    · have hall := (hasOnlyPositionalParams_eq_true stmt).mp hpos
      have hLHS : funcParams types stmt (hasOnlyPositionalParams stmt)
          = ", " ++ positionalFuncParams types stmt := by
        simp [funcParams, hemp, hpos]
      exact ⟨fun _ => hall, fun _ => hLHS⟩
    · have hposf : hasOnlyPositionalParams stmt = false := by simpa using hpos
      have hLHS : funcParams types stmt (hasOnlyPositionalParams stmt)
          = ", " ++ namedFuncParams types stmt := by
        simp [funcParams, hemp, hposf]
      constructor
      · intro heq
        rw [hLHS] at heq
        exact absurd heq (comma_named_ne_comma_positional types stmt)
      · intro hall
        exact absurd ((hasOnlyPositionalParams_eq_true stmt).mpr hall) hpos

/-- C9 witness: a statement with one non-positional parameter gets the
wrapped params object argument. -/
theorem c9_funcParams_wrapping_witness :
    funcParams exTypes stmtNamedEx (hasOnlyPositionalParams stmtNamedEx)
      = ", " ++ namedFuncParams exTypes stmtNamedEx :=
  ((c9_funcParams_wrapping exTypes stmtNamedEx).2.1 (by decide)).mpr
    ⟨paramNamed, by decide, by decide⟩

/-- C10: for a parameter whose type oid has a registered transform, the
emitted query-value expression guards the serialize call by the
truthiness of the parameter value, so under the JavaScript semantics of
the logical AND a null or undefined value is passed through unserialized;
for the postgres target (array encoding and serialize functions resolved
on the connection) an array-typed parameter is additionally wrapped in
sql.array. -/
theorem c10_queryValues_serialization (types : TypeClient)
    (stmt : StatementDescription) (positionalOnly : Bool) (i : Nat)
    (param : NamedValue) (transform : Transform)
    (hp : stmt.params[i]? = some param)
    (ht : types.getTransform param.type.oid = some transform) :
    ((queryValues types stmt positionalOnly false false)[i]?
      = some ((if positionalOnly then "" else "params.") ++ param.name ++ " && " ++
          transform.serializeFunc ++ "(" ++
          ((if positionalOnly then "" else "params.") ++ param.name) ++ ")"))
    ∧ ((queryValues types stmt positionalOnly true true)[i]?
      = some (if types.isArray param.type.oid then
            "sql.array(" ++
              ((if positionalOnly then "" else "params.") ++ param.name ++
                " && sql.types." ++ transform.serializeFunc ++ "(" ++
                ((if positionalOnly then "" else "params.") ++ param.name) ++ ")") ++ ")"
          else
            (if positionalOnly then "" else "params.") ++ param.name ++
              " && sql.types." ++ transform.serializeFunc ++ "(" ++
              ((if positionalOnly then "" else "params.") ++ param.name) ++ ")"))
    ∧ (∀ f, evalAnd JsVal.null f = JsVal.null
          ∧ evalAnd JsVal.undefined f = JsVal.undefined)
    ∧ (∀ v f, jsValTruthy v = true → evalAnd v f = f v) := by
  have hne : stmt.params.isEmpty = false := by
    cases hl : stmt.params with
    | nil => rw [hl] at hp; simp at hp
    | cons a l => simp
  refine ⟨?_, ?_, fun f => ⟨rfl, rfl⟩, fun v f hv => by simp [evalAnd, hv]⟩ <;>
  · rw [queryValues, hne]
    simp only [Bool.false_and, Bool.true_and, Bool.false_eq_true, if_false,
      List.getElem?_map, hp, Option.map_some']
    rw [ht]
    cases hA : types.isArray param.type.oid <;>
      simp [hA, String.append_assoc]

/-- C10 witness: the postgres-target expression for a concrete parameter
of a registered array type wraps the truthiness-guarded serialize call in
sql.array. -/
theorem c10_queryValues_serialization_witness :
    (queryValues exTypesTr stmtNamedEx false true true)[0]?
      = some ("sql.array(" ++
          ("params." ++ "userId" ++ " && sql.types." ++ "serMy" ++ "(" ++
            ("params." ++ "userId") ++ ")") ++ ")") := by
  have h := (c10_queryValues_serialization exTypesTr stmtNamedEx false 0
    paramNamed exTransform rfl rfl).2.1
  simpa using h

/-- The name-collection fold of the preprocessor keeps its accumulator
duplicate-free, and its result holds exactly the accumulated names and
the placeholder names of the scanned tokens. -/
theorem collectParamNames_go (tokens : List SqlToken) (acc : List String)
    (hacc : acc.Nodup) :
    (tokens.foldl (fun acc t => match t with
      | SqlToken.param n => if n ∈ acc then acc else acc ++ [n]
      | SqlToken.text _ => acc) acc).Nodup
    ∧ ∀ x, (x ∈ tokens.foldl (fun acc t => match t with
      | SqlToken.param n => if n ∈ acc then acc else acc ++ [n]
      | SqlToken.text _ => acc) acc ↔ x ∈ acc ∨ SqlToken.param x ∈ tokens) := by
  induction tokens generalizing acc with
  | nil => simp [hacc]
  | cons t rest ih =>
    cases t with
    | text s =>
      have h := ih acc hacc
      simp only [List.foldl_cons]
      refine ⟨h.1, fun x => ?_⟩
      rw [h.2 x]
      simp
    | param n =>
      by_cases hn : n ∈ acc
      · have h := ih acc hacc
        simp only [List.foldl_cons, if_pos hn]
        refine ⟨h.1, fun x => ?_⟩
        rw [h.2 x]
        simp only [List.mem_cons, SqlToken.param.injEq]
        constructor
        · rintro (hx | hx)
          · exact Or.inl hx
          · exact Or.inr (Or.inr hx)
        · rintro (hx | he | hx)
          · exact Or.inl hx
          · cases he
            exact Or.inl hn
          · exact Or.inr hx
      · have hacc2 : (acc ++ [n]).Nodup := by
          simp [List.nodup_append, hacc, hn]
        have h := ih (acc ++ [n]) hacc2
        simp only [List.foldl_cons, if_neg hn]
        refine ⟨h.1, fun x => ?_⟩
        rw [h.2 x]
        simp only [List.mem_append, List.mem_cons, List.not_mem_nil, or_false,
          SqlToken.param.injEq]
        tauto

/-- C4: the paramNames sequence of the preprocessed statement is
duplicate-free, holds exactly the distinct placeholder names of the
statement, so its length is the number of distinct names rather than of
occurrences, and two occurrences of one name are rewritten to the same
positional placeholder number. -/
theorem c4_preprocess_distinct_names (tokens : List SqlToken) :
    (preprocessSQLTokens tokens).paramNames.Nodup
    ∧ (∀ n, n ∈ (preprocessSQLTokens tokens).paramNames
        ↔ SqlToken.param n ∈ tokens)
    ∧ (preprocessSQLTokens tokens).paramNames.length
        = (paramOccurrences tokens).toFinset.card
    ∧ ∀ (i j : Nat) (n : String), tokens[i]? = some (SqlToken.param n) →
        tokens[j]? = some (SqlToken.param n) →
        ∃ p, (preprocessSQLTokens tokens).sql[i]? = some (PosToken.placeholder p)
          ∧ (preprocessSQLTokens tokens).sql[j]? = some (PosToken.placeholder p) := by
  obtain ⟨hnd, hmem⟩ := collectParamNames_go tokens [] List.nodup_nil
  have hnames : (preprocessSQLTokens tokens).paramNames = collectParamNames tokens := rfl
  have hmem2 : ∀ x, x ∈ collectParamNames tokens ↔ SqlToken.param x ∈ tokens := by
    intro x
    rw [collectParamNames, hmem x]
    simp
  refine ⟨hnd, fun n => by rw [hnames, hmem2], ?_, ?_⟩
  · have hfin : (collectParamNames tokens).toFinset
        = (paramOccurrences tokens).toFinset := by
      ext a
      simp only [List.mem_toFinset, hmem2 a, paramOccurrences, List.mem_filterMap]
      constructor
      · intro h
        exact ⟨SqlToken.param a, h, rfl⟩
      · rintro ⟨t, ht, he⟩
        cases t with
        | text s => simp at he
        | param m =>
          simp only [Option.some.injEq] at he
          exact he ▸ ht
    have hnd2 : (collectParamNames tokens).Nodup := hnd
    rw [hnames, ← hfin, List.toFinset_card_of_nodup hnd2]
  · intro i j n hi hj
    have hsql : (preprocessSQLTokens tokens).sql
        = tokens.map (posTokenOf (collectParamNames tokens)) := rfl
    refine ⟨(collectParamNames tokens).indexOf n + 1, ?_, ?_⟩
    · rw [hsql, List.getElem?_map, hi]
      rfl
    · rw [hsql, List.getElem?_map, hj]
      rfl

/-- C4 witness: preprocessing a statement that uses the named parameter id
at two positions reuses one placeholder number at both occurrences, and
the paramNames sequence has length one, the number of distinct names. -/
theorem c4_preprocess_distinct_names_witness :
    (∃ p, (preprocessSQLTokens exTokens).sql[0]? = some (PosToken.placeholder p)
      ∧ (preprocessSQLTokens exTokens).sql[2]? = some (PosToken.placeholder p))
    ∧ (preprocessSQLTokens exTokens).paramNames.length
        = (paramOccurrences exTokens).toFinset.card :=
  ⟨(c4_preprocess_distinct_names exTokens).2.2.2 0 2 "id" rfl rfl,
    (c4_preprocess_distinct_names exTokens).2.2.1⟩

/-- Updating an existing key in place finds the new value under that key. -/
theorem find_map_set (k : Option Int) (v : Json) :
    ∀ m : TransformsMap, (∃ e ∈ m, e.1 = k) →
      mapGet (m.map (fun e => if e.1 == k then (k, v) else e)) k = some v := by
  intro m
  induction m with
  | nil =>
    rintro ⟨e, he, _⟩
    simp at he
  | cons e rest ih =>
    rintro ⟨f, hf, hfk⟩
    by_cases he : e.1 = k
    · rw [List.map_cons, if_pos (by simpa using he), mapGet,
        List.find?_cons_of_pos _ (by simp)]
      rfl
    · have hrest : ∃ f ∈ rest, f.1 = k := by
        rcases List.mem_cons.mp hf with h1 | h1
        · exact absurd (h1 ▸ hfk) he
        · exact ⟨f, h1, hfk⟩
      rw [List.map_cons, if_neg (by simpa using he), mapGet,
        List.find?_cons_of_neg _ (by simpa using he)]
      exact ih hrest

/-- Updating one key in place leaves lookups of every other key unchanged. -/
theorem find_map_keep (k k' : Option Int) (v : Json) (h : k ≠ k') :
    ∀ m : TransformsMap,
      mapGet (m.map (fun e => if e.1 == k then (k, v) else e)) k' = mapGet m k' := by
  intro m
  induction m with
  | nil => rfl
  | cons e rest ih =>
    by_cases he : e.1 = k
    · rw [List.map_cons, if_pos (by simpa using he), mapGet,
        List.find?_cons_of_neg _ (by simpa using h), mapGet,
        List.find?_cons_of_neg _ (by simp [he ▸ h])]
      exact ih
    · by_cases he2 : e.1 = k'
      · rw [List.map_cons, if_neg (by simpa using he), mapGet,
          List.find?_cons_of_pos _ (by simpa using he2), mapGet,
          List.find?_cons_of_pos _ (by simpa using he2)]
      · rw [List.map_cons, if_neg (by simpa using he), mapGet,
          List.find?_cons_of_neg _ (by simpa using he2), mapGet,
          List.find?_cons_of_neg _ (by simpa using he2)]
        exact ih

/-- Lookup in a map extended on the right falls back to the new entry only
when the key is absent from the original map. -/
theorem mapGet_append_single (m : TransformsMap) (k k' : Option Int) (v : Json) :
    mapGet (m ++ [(k, v)]) k'
      = match mapGet m k' with
        | some w => some w
        | none => if k = k' then some v else none := by
  induction m with
  | nil =>
    by_cases h : k = k'
    · rw [List.nil_append, mapGet, List.find?_cons_of_pos _ (by simpa using h)]
      simp [mapGet, h]
    · rw [List.nil_append, mapGet, List.find?_cons_of_neg _ (by simpa using h)]
      simp [mapGet, h]
  | cons e rest ih =>
    by_cases he : e.1 = k'
    · rw [List.cons_append, mapGet, List.find?_cons_of_pos _ (by simpa using he),
        mapGet, List.find?_cons_of_pos _ (by simpa using he)]
      rfl
    · rw [List.cons_append, mapGet, List.find?_cons_of_neg _ (by simpa using he),
        mapGet, List.find?_cons_of_neg _ (by simpa using he)]
      exact ih

/-- Setting a key makes lookups of that key return the new value. -/
theorem mapGet_mapSet_self (m : TransformsMap) (k : Option Int) (v : Json) :
    mapGet (mapSet m k v) k = some v := by
  rw [mapSet]
  by_cases hin : m.any (fun e => e.1 == k)
  · rw [if_pos hin]
    refine find_map_set k v m ?_
    obtain ⟨e, he, hk⟩ := List.any_eq_true.mp hin
    exact ⟨e, he, by simpa using hk⟩
  · rw [if_neg hin, mapGet_append_single]
    have hnone : mapGet m k = none := by
      rw [mapGet]
      have hfind : m.find? (fun e => e.1 == k) = none := by
        rw [List.find?_eq_none]
        intro e he hk
        exact hin (List.any_eq_true.mpr ⟨e, he, hk⟩)
      rw [hfind]
      rfl
    rw [hnone]
    simp

/-- Setting a key leaves lookups of every other key unchanged. -/
theorem mapGet_mapSet_other (m : TransformsMap) (k k' : Option Int) (v : Json)
    (h : k ≠ k') :
    mapGet (mapSet m k v) k' = mapGet m k' := by
  rw [mapSet]
  by_cases hin : m.any (fun e => e.1 == k)
  · rw [if_pos hin]
    exact find_map_keep k k' v h m
  · rw [if_neg hin, mapGet_append_single, if_neg h]
    cases mapGet m k' <;> rfl

/-- Lookup in the map loaded by the getTransforms loop returns the value
of the last enumerated key parsing to the looked-up integer, falling back
to the initial map when no key parses to it. -/
theorem mapGet_load (es : List (String × Json)) (m : TransformsMap)
    (k : Option Int) :
    mapGet (es.foldl (fun m e => mapSet m (jsParseInt e.1) e.2) m) k
      = match lastValueFor es k with
        | some v => some v
        | none => mapGet m k := by
  induction es generalizing m with
  | nil => simp [lastValueFor]
  | cons e rest ih =>
    rw [List.foldl_cons, ih, lastValueFor]
    cases hl : lastValueFor rest k with
    | some v => rfl
    | none =>
      by_cases hk : jsParseInt e.1 = k
      · subst hk
        simp [mapGet_mapSet_self]
      · have hb : (jsParseInt e.1 == k) = false := by simpa using hk
        simp [hb, mapGet_mapSet_other _ _ _ _ hk]

/-- The getTransforms loop succeeds exactly when every enumerated entry is
valid. -/
theorem getTransformsGo_ok_iff (es : List (String × Json)) (m : TransformsMap) :
    (∃ m', getTransformsGo es m = Except.ok m')
      ↔ ∀ e ∈ es, validTransformEntry e.2 = true := by
  induction es generalizing m with
  | nil => simp [getTransformsGo]
  | cons e rest ih =>
    by_cases hv : validTransformEntry e.2
    · rw [getTransformsGo, if_pos hv]
      rw [ih]
      simp [hv]
    · rw [getTransformsGo, if_neg hv]
      simp only [List.mem_cons]
      constructor
      · rintro ⟨m', hm'⟩
        cases hm'
      · intro h
        exact absurd (h e (Or.inl rfl)) hv

/-- On success, the getTransforms loop returns exactly the fold of map
updates over the enumerated entries. -/
theorem getTransformsGo_ok_eq (es : List (String × Json)) (m m' : TransformsMap)
    (h : getTransformsGo es m = Except.ok m') :
    m' = es.foldl (fun m e => mapSet m (jsParseInt e.1) e.2) m := by
  induction es generalizing m with
  | nil =>
    rw [getTransformsGo] at h
    cases h
    rfl
  | cons e rest ih =>
    by_cases hv : validTransformEntry e.2
    · rw [getTransformsGo, if_pos hv] at h
      rw [List.foldl_cons]
      exact ih _ h
    · rw [getTransformsGo, if_neg hv] at h
      cases h

/-- C7 counterexample: a parsed null input is not an object, yet
getTransforms returns an empty map instead of raising; and on an object
whose keys 1 and 01 both parse to the integer 1 with different supplied
values, the returned map holds only the value of the later key, so the
entry for the key 1 does not carry its supplied value. -/
theorem c7_getTransforms_counterexample :
    isJsonObjectStrict Json.null = false
    ∧ getTransformsJson Json.null = Except.ok []
    ∧ getTransformsJson exTransformsObj = Except.ok [(some 1, tB)]
    ∧ mapGet [(some 1, tB)] (some 1) ≠ some tA := by
  refine ⟨rfl, rfl, rfl, ?_⟩
  intro h
  have h2 : some tB = some tA := h
  injection h2 with h3
  simp [tA, tB] at h3

/-- C7 amended: getTransforms succeeds exactly when the parsed input is of
JS object type (an object, an array, or null) and every enumerated entry
is truthy with truthy tsType and serializeFunc properties; the returned
map sends each integer-parsed key to the supplied value of the last key
in enumeration order that parses to that integer. -/
theorem c7_getTransforms_amended (parsed : Json) :
    ((∃ m, getTransformsJson parsed = Except.ok m)
      ↔ (jsTypeofObject parsed = true
          ∧ ∀ e ∈ jsEntries parsed, validTransformEntry e.2 = true))
    ∧ (∀ m, getTransformsJson parsed = Except.ok m →
        ∀ k, mapGet m k = lastValueFor (jsEntries parsed) k) := by
  constructor
  · by_cases ht : jsTypeofObject parsed = true
    · rw [getTransformsJson, if_pos ht, getTransformsGo_ok_iff]
      simp [ht]
    · rw [getTransformsJson, if_neg ht]
      constructor
      · rintro ⟨m, hm⟩
        cases hm
      · rintro ⟨h1, _⟩
        exact absurd h1 ht
  · intro m hm k
    rw [getTransformsJson] at hm
    by_cases ht : jsTypeofObject parsed = true
    · rw [if_pos ht] at hm
      rw [getTransformsGo_ok_eq _ _ _ hm, mapGet_load]
      cases lastValueFor (jsEntries parsed) k <;> rfl
    · rw [if_neg ht] at hm
      cases hm

/-- C7 witness: the amended characterization evaluated on the concrete
colliding-keys object. -/
theorem c7_getTransforms_amended_witness :
    mapGet [(some 1, tB)] (some 1) = lastValueFor (jsEntries exTransformsObj) (some 1) :=
  (c7_getTransforms_amended exTransformsObj).2 [(some 1, tB)] rfl (some 1)

/-- C6: the catalog attribute query returns rows sorted by ascending
attnum; a projected row is returned exactly when it comes from an
attribute of a relation of kind ordinary table or view whose class and
namespace match the requested schema and table name; and when no such
table or view exists the result is the empty list, a not-found answer
rather than an error. -/
theorem c6_tableColumns_semantics (db : Catalog) (schemaName tableName : String) :
    List.Sorted (fun x y => x.attnum ≤ y.attnum)
      (tableColumns db schemaName tableName)
    ∧ (∀ row, row ∈ tableColumns db schemaName tableName ↔
        ∃ attr ∈ db.attributes, ∃ cls ∈ db.classes, ∃ nsp ∈ db.namespaces,
          attr.attrelid = cls.oid ∧ nsp.oid = cls.relnamespace ∧
          (cls.relkind = 'r' ∨ cls.relkind = 'v') ∧
          nsp.nspname = schemaName ∧ cls.relname = tableName ∧
          row = attributeRowOf attr)
    ∧ ((¬ ∃ cls ∈ db.classes, ∃ nsp ∈ db.namespaces,
          nsp.oid = cls.relnamespace ∧ (cls.relkind = 'r' ∨ cls.relkind = 'v') ∧
          nsp.nspname = schemaName ∧ cls.relname = tableName) →
        tableColumns db schemaName tableName = []) := by
  haveI hTot : IsTotal AttributeRow (fun x y => x.attnum ≤ y.attnum) :=
    ⟨fun a b => le_total a.attnum b.attnum⟩
  haveI hTrans : IsTrans AttributeRow (fun x y => x.attnum ≤ y.attnum) :=
    ⟨fun a b c hab hbc => le_trans hab hbc⟩
  have hmem : ∀ row, row ∈ tableColumns db schemaName tableName ↔
      ∃ attr ∈ db.attributes, ∃ cls ∈ db.classes, ∃ nsp ∈ db.namespaces,
        attr.attrelid = cls.oid ∧ nsp.oid = cls.relnamespace ∧
        (cls.relkind = 'r' ∨ cls.relkind = 'v') ∧
        nsp.nspname = schemaName ∧ cls.relname = tableName ∧
        row = attributeRowOf attr := by
    intro row
    simp only [tableColumns, List.mem_insertionSort, List.mem_flatMap,
      List.mem_filterMap, Option.ite_none_right_eq_some, Option.some.injEq,
      Bool.and_eq_true, Bool.or_eq_true, beq_iff_eq]
    constructor
    · rintro ⟨attr, hattr, cls, hcls, nsp, hnsp, ⟨⟨⟨⟨h1, h2⟩, h3⟩, h4⟩, h5⟩, hrow⟩
      exact ⟨attr, hattr, cls, hcls, nsp, hnsp, h1, h2, h3, h4, h5, hrow.symm⟩
    · rintro ⟨attr, hattr, cls, hcls, nsp, hnsp, h1, h2, h3, h4, h5, hrow⟩
      exact ⟨attr, hattr, cls, hcls, nsp, hnsp, ⟨⟨⟨⟨h1, h2⟩, h3⟩, h4⟩, h5⟩, hrow.symm⟩
  refine ⟨List.sorted_insertionSort _ _, hmem, fun hno => ?_⟩
  rw [List.eq_nil_iff_forall_not_mem]
  intro row hrow
  obtain ⟨attr, _, cls, hcls, nsp, hnsp, _, h2, h3, h4, h5, _⟩ := (hmem row).mp hrow
  exact hno ⟨cls, hcls, nsp, hnsp, h2, h3, h4, h5⟩

/-- C6 witness: on an empty catalog the query answers with the empty list. -/
theorem c6_tableColumns_semantics_witness :
    tableColumns emptyCatalog "public" "t" = [] :=
  (c6_tableColumns_semantics emptyCatalog "public" "t").2.2 (by simp [emptyCatalog])

/-- Invariant of the duplicate-collection fold of validateStatement: given
a duplicate-free conflicts accumulator contained in the seen-names
accumulator, the final conflicts list is duplicate-free and holds exactly
the initial conflicts, the already seen names that recur, and the fresh
names occurring at least twice. -/
theorem validateFold_spec (names : List String) (cols confl : List String)
    (hconfl : confl.Nodup) (hsub : ∀ x ∈ confl, x ∈ cols) :
    (names.foldl validateStep (cols, confl)).2.Nodup
    ∧ ∀ x, (x ∈ (names.foldl validateStep (cols, confl)).2 ↔
        x ∈ confl ∨ (x ∈ cols ∧ x ∈ names) ∨ (x ∉ cols ∧ 2 ≤ names.count x)) := by
  induction names generalizing cols confl with
  | nil =>
    refine ⟨hconfl, fun x => ?_⟩
    simp
  | cons n rest ih =>
    rw [List.foldl_cons]
    by_cases hn : n ∈ cols
    · have hstep : validateStep (cols, confl) n
          = (cols, if n ∈ confl then confl else confl ++ [n]) := by
        simp [validateStep, hn]
      rw [hstep]
      have hconfl2 : (if n ∈ confl then confl else confl ++ [n]).Nodup := by
        by_cases hnc : n ∈ confl
        · simpa [hnc] using hconfl
        · simp only [hnc, if_neg, if_false]
          simp [List.nodup_append, hconfl, hnc]
      have hmem2 : ∀ x, x ∈ (if n ∈ confl then confl else confl ++ [n])
          ↔ x ∈ confl ∨ x = n := by
        intro x
        by_cases hnc : n ∈ confl
        · simp only [hnc, if_pos]
          constructor
          · exact Or.inl
          · rintro (hx | hx)
            · exact hx
            · exact hx ▸ hnc
        · simp [hnc, List.mem_append]
      have hsub2 : ∀ x ∈ (if n ∈ confl then confl else confl ++ [n]), x ∈ cols := by
        intro x hx
        rcases (hmem2 x).mp hx with hx2 | hx2
        · exact hsub x hx2
        · exact hx2 ▸ hn
      have h := ih cols _ hconfl2 hsub2
      refine ⟨h.1, fun x => ?_⟩
      rw [h.2 x, hmem2 x]
      constructor
      · rintro ((hx | hx) | ⟨hx1, hx2⟩ | ⟨hx1, hx2⟩)
        · exact Or.inl hx
        · exact Or.inr (Or.inl ⟨hx ▸ hn, hx ▸ List.mem_cons_self n rest⟩)
        · exact Or.inr (Or.inl ⟨hx1, List.mem_cons_of_mem n hx2⟩)
        · refine Or.inr (Or.inr ⟨hx1, ?_⟩)
          have hxn : x ≠ n := fun he => hx1 (he ▸ hn)
          rw [List.count_cons_of_ne hxn]
          exact hx2
      · rintro (hx | ⟨hx1, hx2⟩ | ⟨hx1, hx2⟩)
        · exact Or.inl (Or.inl hx)
        · rcases List.mem_cons.mp hx2 with he | hx3
          · exact Or.inl (Or.inr he)
          · exact Or.inr (Or.inl ⟨hx1, hx3⟩)
        · refine Or.inr (Or.inr ⟨hx1, ?_⟩)
          have hxn : x ≠ n := fun he => hx1 (he ▸ hn)
          rw [List.count_cons_of_ne hxn] at hx2
          exact hx2
    · have hstep : validateStep (cols, confl) n = (cols ++ [n], confl) := by
        simp [validateStep, hn]
      rw [hstep]
      have hsub2 : ∀ x ∈ confl, x ∈ cols ++ [n] :=
        fun x hx => List.mem_append_left _ (hsub x hx)
      have h := ih (cols ++ [n]) confl hconfl hsub2
      refine ⟨h.1, fun x => ?_⟩
      rw [h.2 x]
      by_cases hxn : x = n
      · subst hxn
        have hxc : x ∉ confl := fun hx => hn (hsub x hx)
        have hcols2 : x ∈ cols ++ [x] := List.mem_append_right _ (List.mem_singleton.mpr rfl)
        constructor
        · rintro (hx | ⟨_, hx2⟩ | ⟨hx1, _⟩)
          · exact absurd hx hxc
          · refine Or.inr (Or.inr ⟨hn, ?_⟩)
            rw [List.count_cons_self]
            have : 0 < rest.count x := List.count_pos_iff.mpr hx2
            omega
          · exact absurd hcols2 hx1
        · rintro (hx | ⟨hx1, _⟩ | ⟨_, hx2⟩)
          · exact absurd hx hxc
          · exact absurd hx1 hn
          · refine Or.inr (Or.inl ⟨hcols2, ?_⟩)
            rw [List.count_cons_self] at hx2
            have : 0 < rest.count x := by omega
            exact List.count_pos_iff.mp this
      · have hcolseq : x ∈ cols ++ [n] ↔ x ∈ cols := by
          simp [List.mem_append, hxn]
        have hcnt : (n :: rest).count x = rest.count x := List.count_cons_of_ne hxn _
        constructor
        · rintro (hx | ⟨hx1, hx2⟩ | ⟨hx1, hx2⟩)
          · exact Or.inl hx
          · exact Or.inr (Or.inl ⟨hcolseq.mp hx1, List.mem_cons_of_mem n hx2⟩)
          · refine Or.inr (Or.inr ⟨fun hc => hx1 (List.mem_append_left _ hc), ?_⟩)
            rw [hcnt]
            exact hx2
        · rintro (hx | ⟨hx1, hx2⟩ | ⟨hx1, hx2⟩)
          · exact Or.inl hx
          · rcases List.mem_cons.mp hx2 with he | hx3
            · exact absurd he hxn
            · exact Or.inr (Or.inl ⟨hcolseq.mpr hx1, hx3⟩)
          · refine Or.inr (Or.inr ⟨fun hc => hx1 (hcolseq.mp hc), ?_⟩)
            rw [hcnt] at hx2
            exact hx2

/-- C1: validateStatement fails, with an error whose message lists the
duplicated names, exactly when two output columns share a name, and
returns the statement unchanged otherwise; the duplicate case is an error
of the description, not a warning. -/
theorem c1_validateStatement_duplicates (stmt : StatementDescription) :
    ((stmt.columns.map (fun c => c.name)).Nodup →
      validateStatement stmt = Except.ok stmt)
    ∧ (¬ (stmt.columns.map (fun c => c.name)).Nodup →
      validateStatement stmt =
        Except.error ("Duplicate output columns: " ++
          String.intercalate ", " (duplicatedColumnNames stmt))) := by
  set names := stmt.columns.map (fun c => c.name) with hnames
  have hfold : stmt.columns.foldl (fun acc nv => validateStep acc nv.name) ([], [])
      = names.foldl validateStep ([], []) := by
    rw [hnames, List.foldl_map]
  obtain ⟨hnd, hmem⟩ := validateFold_spec names [] [] List.nodup_nil (by simp)
  have hmem2 : ∀ x, x ∈ (names.foldl validateStep ([], [])).2
      ↔ 2 ≤ names.count x := by
    intro x
    rw [hmem x]
    simp
  constructor
  · intro hnodup
    have hconfl_nil : (names.foldl validateStep ([], [])).2 = [] := by
      rw [List.eq_nil_iff_forall_not_mem]
      intro x hx
      have hcnt := (hmem2 x).mp hx
      have hle := List.nodup_iff_count_le_one.mp hnodup x
      omega
    simp only [validateStatement]
    rw [hfold, hconfl_nil]
    rfl
  · intro hdup
    have hne : (names.foldl validateStep ([], [])).2 ≠ [] := by
      obtain ⟨x, hx⟩ : ∃ x, 2 ≤ names.count x := by
        by_contra hno
        push_neg at hno
        apply hdup
        rw [List.nodup_iff_count_le_one]
        intro a
        have := hno a
        omega
      intro hnil
      have hxmem := (hmem2 x).mpr hx
      rw [hnil] at hxmem
      exact List.not_mem_nil x hxmem
    have hsorteq : List.insertionSort (· ≤ ·) (names.foldl validateStep ([], [])).2
        = duplicatedColumnNames stmt := by
      have hnd2 : (names.dedup.filter (fun n => 1 < names.count n)).Nodup :=
        List.Nodup.filter _ names.nodup_dedup
      have hperm : List.Perm (names.foldl validateStep ([], [])).2
          (names.dedup.filter (fun n => 1 < names.count n)) := by
        refine (List.perm_ext_iff_of_nodup hnd hnd2).mpr fun a => ?_
        rw [hmem2 a, List.mem_filter, List.mem_dedup]
        constructor
        · intro h2
          have hmn : a ∈ names := List.count_pos_iff.mp (by omega)
          exact ⟨hmn, by simpa using (by omega : 1 < names.count a)⟩
        · rintro ⟨_, hcnt⟩
          have : 1 < names.count a := by simpa using hcnt
          omega
      have hdup_eq : duplicatedColumnNames stmt
          = List.insertionSort (· ≤ ·)
              (names.dedup.filter (fun n => 1 < names.count n)) := by
        rw [duplicatedColumnNames, ← hnames]
      rw [hdup_eq]
      exact List.eq_of_perm_of_sorted
        ((List.perm_insertionSort _ _).trans
          (hperm.trans (List.perm_insertionSort _ _).symm))
        (List.sorted_insertionSort _ _) (List.sorted_insertionSort _ _)
    simp only [validateStatement]
    rw [hfold, if_neg (by simpa [List.isEmpty_iff] using hne), hsorteq]

/-- C1 witness: a statement repeating the output column name a is rejected
with the message listing the duplicated name, and a statement with
distinct column names passes through unchanged. -/
theorem c1_validateStatement_duplicates_witness :
    validateStatement stmtDupEx =
      Except.error ("Duplicate output columns: " ++
        String.intercalate ", " (duplicatedColumnNames stmtDupEx))
    ∧ validateStatement stmtOkEx = Except.ok stmtOkEx :=
  ⟨(c1_validateStatement_duplicates stmtDupEx).2 (by decide),
    (c1_validateStatement_duplicates stmtOkEx).1 (by decide)⟩
